import Mathlib

set_option maxRecDepth 16384

/-!
Shallow embedding of the coordinate-parsing, row-normalization and caching
core of server.js (Site_Coverage repository).

Modelling conventions:
- JS strings are modelled as Lean strings / lists of characters.
- JS numbers (IEEE binary64 doubles) are modelled by the type JsNum below:
  finite doubles are idealized as exact rationals, while NaN and the two
  infinities are explicit values. The decimal-to-double conversions and
  double addition saturate to the infinities at the exact binary64
  round-to-nearest-even overflow boundary 2 to the 1024 minus 2 to the 970,
  so a numeric cell whose magnitude exceeds the double range becomes an
  infinity exactly as in the program; finite results are kept exact rather
  than rounded to 53 bits.
- The source file contains the character U+C9F8 (a mojibake of the degree
  sign U+00B0) inside its degree/minute/second regexes; the embedding keeps
  that exact character, written Char.ofNat 51704.
- Characters that are awkward in literals (apostrophe U+0027, double quote
  U+0022) are written with Char.ofNat; test strings containing them are
  built with String.mk from character lists.
-/

namespace SiteCoverage

/-- The apostrophe character U+0027, one of the minute marks the code strips. -/
def aposChar : Char := Char.ofNat 39

/-- The double quote character U+0022, the second mark the code strips. -/
def quotChar : Char := Char.ofNat 34

/-- The character U+C9F8 that appears in the regexes of server.js in place of
the degree sign U+00B0 (a mojibake of the UTF-8 bytes of the degree sign). -/
def mojibakeDeg : Char := Char.ofNat 51704

/-- The real degree sign U+00B0, used by DMS inputs in the specification. -/
def degreeSign : Char := Char.ofNat 176

/-- Whitespace characters recognised by the model of the JS trim and of the
regex backslash-s class: space, tab, LF, CR, VT, FF, NBSP. -/
def jsWsChars : List Char := [' ', '\t', '\n', '\r', Char.ofNat 11, Char.ofNat 12, Char.ofNat 160]

def isJsWs (c : Char) : Bool := jsWsChars.contains c

/-- Model of the JS String.prototype.trim on a character list: drop leading
and trailing whitespace. -/
def trimL (l : List Char) : List Char :=
  ((l.dropWhile isJsWs).reverse.dropWhile isJsWs).reverse

/-- Model of the JS String.prototype.trim. -/
def jsTrim (s : String) : String := String.mk (trimL s.data)

/-- Model of the JS s.replace(c, d) with a single-character string pattern:
only the FIRST occurrence of c is replaced. -/
def replaceFirstChar : List Char → Char → Char → List Char
  | [], _, _ => []
  | c :: cs, a, b => if c = a then b :: cs else c :: replaceFirstChar cs a b

/-- A JS number (IEEE binary64 double) in the embedding: finite doubles are
idealized as exact rationals; NaN and the infinities are explicit. -/
inductive JsNum where
  | fin (q : ℚ)
  | posInf
  | negInf
  | nan
deriving DecidableEq, Repr

/-- Whether a JS number is finite (neither NaN nor an infinity). -/
def JsNum.isFinite : JsNum → Bool
  | .fin _ => true
  | _ => false

/-- The smallest magnitude at which round-to-nearest-even conversion to
binary64 overflows to an infinity: 2 to the 1024 minus 2 to the 970, here
written as 2 to the 970 (a tenth power of 2 to the 97) times 2 to the 54
minus 1 so that every exponent literal stays below the evaluation
threshold. Exact values at or above it round past the largest finite
double. -/
def dblOverflow : ℚ := (((2 ^ 97 : ℕ) ^ 10 * (2 ^ 54 - 1) : ℕ) : ℚ)

theorem dblOverflow_eq : dblOverflow = ((2 ^ 1024 - 2 ^ 970 : ℕ) : ℚ) := by
  norm_num [dblOverflow]

/-- Conversion of an exact value to the double model: magnitudes at or
beyond the binary64 overflow boundary become the infinities, as in the
program; smaller values are kept exact rather than rounded to 53 bits. -/
def toDouble (q : ℚ) : JsNum :=
  if dblOverflow ≤ q then .posInf
  else if q ≤ -dblOverflow then .negInf
  else .fin q

/-- Model of the JS Math.abs on doubles. -/
def jsAbs : JsNum → JsNum
  | .fin q => .fin (if q < 0 then -q else q)
  | .posInf => .posInf
  | .negInf => .posInf
  | .nan => .nan

/-- Negation of a double, as produced by multiplying by minus one. -/
def jsNeg : JsNum → JsNum
  | .fin q => .fin (-q)
  | .posInf => .negInf
  | .negInf => .posInf
  | .nan => .nan

/-- Double addition: NaN is absorbing, opposite infinities give NaN, an
infinity absorbs finite addends, and a finite sum saturates at the binary64
overflow boundary. -/
def jsAdd : JsNum → JsNum → JsNum
  | .nan, _ => .nan
  | _, .nan => .nan
  | .posInf, .negInf => .nan
  | .negInf, .posInf => .nan
  | .posInf, _ => .posInf
  | .negInf, _ => .negInf
  | .fin _, .posInf => .posInf
  | .fin _, .negInf => .negInf
  | .fin a, .fin b => toDouble (a + b)

/-- Division of a double by a positive finite constant (the literals 60 and
3600 in server.js); a finite quotient cannot overflow here. -/
def jsDivPos : JsNum → ℚ → JsNum
  | .fin q, c => .fin (q / c)
  | .posInf, _ => .posInf
  | .negInf, _ => .negInf
  | .nan, _ => .nan

/-- The JS comparison with zero used by the sign-preservation step: NaN and
positive infinity are not below zero, negative infinity is. -/
def jsIsNeg : JsNum → Bool
  | .fin q => decide (q < 0)
  | .negInf => true
  | .posInf => false
  | .nan => false

/-- JS cell values that can appear in a raw row: strings, numbers, or null. -/
inductive Cell where
  | str (s : String)
  | num (x : JsNum)
  | null
deriving DecidableEq, Repr

/-- Decimal rendering used for the JS String(number) coercion on finite
values. Only its totality and the absence of whitespace matter for the
claims below. -/
def ratToString (q : ℚ) : String :=
  if q.den = 1 then toString q.num else toString q.num ++ "/" ++ toString q.den

/-- Model of the JS String(value) coercion as used on label cells. -/
def jsToString : Cell → String
  | .str s => s
  | .num (.fin q) => ratToString q
  | .num .posInf => "Infinity"
  | .num .negInf => "-Infinity"
  | .num .nan => "NaN"
  | .null => "null"

/-- Numeric value of a list of decimal digit characters. -/
def digitsVal (l : List Char) : ℕ := l.foldl (fun a c => a * 10 + (c.toNat - 48)) 0

/-- The rational denoted by a sign, an integer digit part and a fraction
digit part. -/
def decOfParts (sg : ℚ) (ip fp : List Char) : ℚ :=
  sg * ((digitsVal ip : ℚ) + (digitsVal fp : ℚ) / 10 ^ fp.length)

/-- Split a leading sign character off a character list, as both the JS
parseFloat and Number grammars do. -/
def splitSign : List Char → ℚ × List Char
  | '-' :: t => (-1, t)
  | '+' :: t => (1, t)
  | l => (1, l)

/-- Model of the JS parseFloat on an already-tokenised string: an optional
sign followed by the longest decimal-literal prefix; NaN when no digit is
consumed, and saturation to an infinity when the denoted magnitude exceeds
the double range. Exponent forms never reach parseFloat in this program:
the letter e is a hemisphere letter and is replaced by a space before
tokenisation whenever it occurs on the DMS path. -/
def parseFloatL (l : List Char) : JsNum :=
  let p := splitSign l
  let ip := p.2.takeWhile Char.isDigit
  let r2 := p.2.dropWhile Char.isDigit
  let fp := match r2 with
    | '.' :: t => t.takeWhile Char.isDigit
    | _ => []
  if ip = [] && fp = [] then .nan else toDouble (decOfParts p.1 ip fp)

def isHexDigit (c : Char) : Bool :=
  c.isDigit || (('a' ≤ c && c ≤ 'f') || ('A' ≤ c && c ≤ 'F'))

def hexDigitVal (c : Char) : ℕ :=
  if c.isDigit then c.toNat - 48
  else if 'a' ≤ c && c ≤ 'f' then c.toNat - 87
  else c.toNat - 55

/-- Value of a digit list in the given radix (16, 8 or 2 below). -/
def radixVal (r : ℕ) (l : List Char) : ℕ := l.foldl (fun a c => a * r + hexDigitVal c) 0

/-- The decimal case of the JS Number(s) conversion: the whole string must
be a signed decimal literal; the result saturates to an infinity past the
double range. -/
def jsNumberDec (l : List Char) : JsNum :=
  let p := splitSign l
  let ip := p.2.takeWhile Char.isDigit
  let r2 := p.2.dropWhile Char.isDigit
  match r2 with
  | [] => if ip = [] then .nan else toDouble (decOfParts p.1 ip [])
  | c :: t =>
    if c = '.' then
      let fp := t.takeWhile Char.isDigit
      let r3 := t.dropWhile Char.isDigit
      if r3 = [] && !(ip = [] && fp = []) then toDouble (decOfParts p.1 ip fp) else .nan
    else .nan

/-- Model of the JS Number(s) conversion on a trimmed non-empty string, for
the forms that can reach the plain-number branch of parseCoord: signed
decimal literals, and unsigned hex, octal and binary literals (0x, 0o, 0b
prefixes); anything else is NaN. Strings containing the letters n, s, e, w
(hence Infinity and all exponent forms, and hex literals with an e digit)
never reach this branch. Conversion saturates to an infinity at the double
overflow boundary. -/
def jsNumberL (l : List Char) : JsNum :=
  match l with
  | '0' :: x :: rest =>
    if x = 'x' || x = 'X' then
      if rest ≠ [] && rest.all isHexDigit then toDouble (radixVal 16 rest) else .nan
    else if x = 'o' || x = 'O' then
      if rest ≠ [] && rest.all (fun c => '0' ≤ c && c ≤ '7') then toDouble (radixVal 8 rest)
      else .nan
    else if x = 'b' || x = 'B' then
      if rest ≠ [] && rest.all (fun c => c = '0' || c = '1') then toDouble (radixVal 2 rest)
      else .nan
    else jsNumberDec l
  | _ => jsNumberDec l

/-- The hemisphere letters matched case-insensitively by the regex class
with N, S, E and W in server.js. -/
def hemiChars : List Char := ['N', 'S', 'E', 'W', 'n', 's', 'e', 'w']

def isHemiChar (c : Char) : Bool := hemiChars.contains c

/-- The three characters of the DMS-symbol regex class in server.js: the
mojibake degree character U+C9F8, the apostrophe and the double quote.
The real degree sign U+00B0 is NOT in this set. -/
def dmsSymbolChars : List Char := [mojibakeDeg, aposChar, quotChar]

def isDmsSymbol (c : Char) : Bool := dmsSymbolChars.contains c

/-- Test of the DMS-symbol regex on the comma-normalised string. -/
def hasDmsL (l : List Char) : Bool := l.any isDmsSymbol

/-- Test of the hemisphere regex on the comma-normalised string. -/
def hasHemiL (l : List Char) : Bool := l.any isHemiChar

/-- The first hemisphere letter of the string, uppercased, as extracted by
the match against the hemisphere regex in server.js. -/
def hemiOfL (l : List Char) : Option Char := (l.find? isHemiChar).map Char.toUpper

/-- Replace every hemisphere letter by a space, as the global
case-insensitive replace does; server.js runs it only when a hemisphere
letter was found. -/
def stripHemi (l : List Char) : List Char :=
  if (l.find? isHemiChar).isSome then l.map (fun c => if isHemiChar c then ' ' else c) else l

/-- Replace every DMS symbol character by a space, as the three global
replaces in server.js do. -/
def stripDmsSymbols (l : List Char) : List Char :=
  l.map (fun c => if isDmsSymbol c then ' ' else c)

/-- Split a character list into maximal whitespace-free words. Models the
composite replace of whitespace runs by one space, trim, split on space and
filter of empty strings in server.js. -/
def wordsAux : List Char → List Char → List (List Char)
  | [], acc => if acc = [] then [] else [acc.reverse]
  | c :: cs, acc =>
    if isJsWs c then
      if acc = [] then wordsAux cs [] else acc.reverse :: wordsAux cs []
    else wordsAux cs (c :: acc)

def words (l : List Char) : List (List Char) := wordsAux l []

/-- The comma-normalised form of a coordinate string: trimmed, with the
first comma replaced by a dot. -/
def commaNorm (v : String) : List Char := replaceFirstChar (trimL v.data) ',' '.'

/-- The hemisphere letter the DMS path of parseCoord extracts from a
coordinate string. -/
def coordHemi (v : String) : Option Char := hemiOfL (commaNorm v)

/-- The whitespace-separated tokens of the cleaned coordinate string on the
DMS path: hemisphere letters and DMS symbols replaced by spaces, then split
on whitespace. -/
def coordTokens (v : String) : List (List Char) :=
  words (stripDmsSymbols (stripHemi (commaNorm v)))

/-- Whether a string input takes the DMS path of parseCoord: non-empty
after trimming, and the comma-normalised form contains a DMS symbol or a
hemisphere letter. -/
def DmsTaken (v : String) : Prop :=
  trimL v.data ≠ [] ∧ (hasDmsL (commaNorm v) || hasHemiL (commaNorm v)) = true

instance (v : String) : Decidable (DmsTaken v) := by unfold DmsTaken; infer_instance

/-- The sign override applied at the end of the DMS path: S or W forces the
negated absolute value, N or E the absolute value, exactly the final two
conditionals of parseCoord in server.js. -/
def applyHemi (hemi : Option Char) (dec : JsNum) : JsNum :=
  match hemi with
  | some h =>
    if h = 'S' || h = 'W' then jsNeg (jsAbs dec)
    else if h = 'N' || h = 'E' then jsAbs dec else dec
  | none => dec

/-- The double arithmetic of the DMS path: abs degrees plus minutes over 60
plus seconds over 3600, left associated as in the source, negated when the
degrees value compares below zero. -/
def dmsFromParts (deg mn sc : JsNum) : JsNum :=
  if jsIsNeg deg then jsNeg (jsAdd (jsAdd (jsAbs deg) (jsDivPos mn 60)) (jsDivPos sc 3600))
  else jsAdd (jsAdd (jsAbs deg) (jsDivPos mn 60)) (jsDivPos sc 3600)

/-- The DMS path of parseCoord in server.js: degrees, minutes and seconds
are the parseFloat values of the first three tokens (minutes and seconds
default to the string 0 when the token is absent); any NaN among the three
makes the result NaN; otherwise the magnitude is computed, the numeric sign
of the degrees preserved, and the hemisphere override applied. Tokens after
the third are ignored. -/
def dmsCompute (hemi : Option Char) (parts : List (List Char)) : JsNum :=
  match parts with
  | [] => .nan
  | p0 :: rest =>
    if parseFloatL p0 = .nan ∨ parseFloatL (rest.getD 0 ['0']) = .nan ∨
        parseFloatL (rest.getD 1 ['0']) = .nan then .nan
    else
      applyHemi hemi
        (dmsFromParts (parseFloatL p0) (parseFloatL (rest.getD 0 ['0']))
          (parseFloatL (rest.getD 1 ['0'])))

/-- Model of parseCoord in server.js, returning a JS number that may be NaN
or an infinity: null input is NaN; numeric input is returned unchanged; a
string is trimmed (empty means NaN), its first comma becomes a dot, and
then either the whole string is converted as a plain number (when it has
neither a DMS symbol nor a hemisphere letter) or the DMS path runs. -/
def parseCoord : Cell → JsNum
  | .null => .nan
  | .num x => x
  | .str v =>
    if trimL v.data = [] then .nan
    else if !hasDmsL (commaNorm v) && !hasHemiL (commaNorm v) then jsNumberL (commaNorm v)
    else dmsCompute (coordHemi v) (coordTokens v)

/-- A raw CSV row as a JS object: an ordered association of column names to
cell values, insertion order preserved; a later binding of the same name
shadows an earlier one, as in object construction. -/
abbrev Row := List (String × Cell)

/-- A normalized point as produced by normalizeRows. The coordinates are JS
numbers: the guard in the source rejects only NaN, so an infinity can occur
here. -/
structure Point where
  lat : JsNum
  lon : JsNum
  label : String
deriving DecidableEq, Repr

def toLowerStr (s : String) : String := String.mk (s.data.map Char.toLower)

/-- The lookup in the lowercased-key object built by findKey: the original
key of the LAST row entry whose lowercased name equals lc, since
Object.fromEntries lets later entries overwrite earlier ones. -/
def lowerLookup (row : Row) (lc : String) : Option String :=
  (row.reverse.find? (fun kv => toLowerStr kv.1 = lc)).map (fun kv => kv.1)

/-- Model of findKey in server.js: walk the candidate aliases in priority
order and return the first row column name whose lowercased form matches
the lowercased candidate. A hit that is the empty string is falsy in JS
and is skipped. -/
def findKey (row : Row) : List String → Option String
  | [] => none
  | c :: rest =>
    match lowerLookup row (toLowerStr c) with
    | some k => if k = "" then findKey row rest else some k
    | none => findKey row rest

/-- JS property read on a row object; the key is always one found by
findKey, hence present, so the default is never reached. -/
def jsGet (row : Row) (k : String) : Cell :=
  ((row.reverse.find? (fun kv => kv.1 = k)).map (fun kv => kv.2)).getD Cell.null

def latAliases : List String := ["lat", "Latitude", "y"]
def lonAliases : List String := ["lon", "lng", "Longitude", "x"]
def nameAliases : List String := ["user", "username", "name", "label", "Analyst"]

/-- The per-row body of the loop of normalizeRows in server.js: resolve the
three columns (drop the row when any is unresolved), parse both
coordinates, coerce and trim the label, and drop the row when a coordinate
is NaN or the label is empty. -/
def normStep (row : Row) : Option Point :=
  match findKey row latAliases, findKey row lonAliases, findKey row nameAliases with
  | some lk, some lok, some nk =>
    if parseCoord (jsGet row lk) = .nan ∨ parseCoord (jsGet row lok) = .nan ∨
        jsTrim (jsToString (jsGet row nk)) = "" then none
    else
      some ⟨parseCoord (jsGet row lk), parseCoord (jsGet row lok),
        jsTrim (jsToString (jsGet row nk))⟩
  | _, _, _ => none

/-- Model of normalizeRows in server.js: every row is either appended to
the output in input order or dropped and counted. The second component is
the dropped counter the function reports to the console. -/
def normalizeRows : List Row → List Point × ℕ
  | [] => ([], 0)
  | row :: rest =>
    let r := normalizeRows rest
    match normStep row with
    | some p => (p :: r.1, r.2)
    | none => (r.1, r.2 + 1)

/-- Split a character list at every occurrence of a separator character. -/
def splitOnCharAux (sep : Char) : List Char → List Char → List (List Char)
  | [], acc => [acc.reverse]
  | c :: cs, acc =>
    if c = sep then acc.reverse :: splitOnCharAux sep cs []
    else splitOnCharAux sep cs (c :: acc)

def splitOnChar (sep : Char) (l : List Char) : List (List Char) := splitOnCharAux sep l []

/-- Model of the external CSV reader call (papaparse with header true and
skipEmptyLines true) as configured in server.js: lines are split on
newlines, blank lines are skipped, the first remaining line gives the
headers, every later line is split on commas and zipped with the headers
into a row of string cells. Quoting and other dialect features are outside
the scope of the claims. -/
def csvParse (text : String) : List Row :=
  let lines := (splitOnChar '\n' text.data).filter (fun ln => ln ≠ [])
  match lines with
  | [] => []
  | hd :: body =>
    let headers := (splitOnChar ',' hd).map String.mk
    body.map (fun ln => headers.zip ((splitOnChar ',' ln).map (fun cs => Cell.str (String.mk cs))))

/-- The module-level cache of server.js: rows is null before the first
successful load, and mtimeMs starts at 0. -/
structure Cache where
  rows : Option (List Point)
  mtimeMs : ℚ
deriving DecidableEq, Repr

def initialCache : Cache := { rows := none, mtimeMs := 0 }

/-- The state of the backing CSV file as seen by one call: none when the
stat or read fails (missing file, permission or I/O error), otherwise the
modification time in milliseconds together with the file content. The stat
and the read of one call see the same state; the race the specification
calls benign is not modelled. -/
structure Fs where
  file : Option (ℚ × String)

/-- The observable outcome of one loadCsvCached call: the returned points,
the cache value after the call, and whether the call read and parsed the
file. -/
structure LoadResult where
  points : List Point
  cache : Cache
  didParse : Bool
deriving DecidableEq, Repr

/-- Model of loadCsvCached in server.js: a failing stat or read is caught
and yields an empty list with the cache untouched; otherwise the file is
read, parsed and normalized exactly when the cache is still null or the
modification time strictly advanced, replacing the cache wholesale; an
up-to-date cache is returned without any read. The function is total: the
catch block means no error crosses the public boundary. -/
def loadCsvCached (fs : Fs) (c : Cache) : LoadResult :=
  match fs.file with
  | none => ⟨[], c, false⟩
  | some (m, text) =>
    if c.rows = none ∨ m > c.mtimeMs then
      let pts := (normalizeRows (csvParse text)).1
      ⟨pts, { rows := some pts, mtimeMs := m }, true⟩
    else ⟨c.rows.getD [], c, false⟩

/-! Support lemmas. -/

theorem dropWhile_dropWhile {α : Type} (p : α → Bool) (l : List α) :
    (l.dropWhile p).dropWhile p = l.dropWhile p := by
  induction l with
  | nil => rfl
  | cons h t ih =>
    by_cases hp : p h
    · simp [List.dropWhile, hp, ih]
    · simp [List.dropWhile, hp]

theorem dropWhile_eq_self_of_cons {α : Type} (p : α → Bool) (c : α) (cs : List α)
    (hd : (c :: cs).dropWhile p = c :: cs) : p c = false := by
  cases hpc : p c with
  | false => rfl
  | true =>
    simp only [List.dropWhile_cons, hpc, if_true] at hd
    have hsub : cs.dropWhile p <:+ cs := List.dropWhile_suffix p
    have hlen : (cs.dropWhile p).length ≤ cs.length := hsub.length_le
    rw [hd] at hlen
    simp at hlen

/-- Removing trailing elements preserves the absence of a leading element
satisfying p. -/
theorem backTrim_preserves_noLead {α : Type} (p : α → Bool) (l : List α)
    (h : l.dropWhile p = l) :
    ((l.reverse.dropWhile p).reverse).dropWhile p = (l.reverse.dropWhile p).reverse := by
  have hsplit : l.reverse.takeWhile p ++ l.reverse.dropWhile p = l.reverse :=
    List.takeWhile_append_dropWhile p l.reverse
  have hl : l = (l.reverse.dropWhile p).reverse ++ (l.reverse.takeWhile p).reverse := by
    have h2 := congrArg List.reverse hsplit
    rw [List.reverse_append, List.reverse_reverse] at h2
    exact h2.symm
  cases hy : (l.reverse.dropWhile p).reverse with
  | nil => simp
  | cons c cs =>
    rw [hy] at hl
    have hfalse : p c = false := by
      apply dropWhile_eq_self_of_cons p c (cs ++ (l.reverse.takeWhile p).reverse)
      rw [← List.cons_append, ← hl]
      exact h
    simp [List.dropWhile_cons, hfalse]

theorem trimL_idem (l : List Char) : trimL (trimL l) = trimL l := by
  unfold trimL
  have hnoLead : (((l.dropWhile isJsWs).reverse.dropWhile isJsWs).reverse).dropWhile isJsWs =
      ((l.dropWhile isJsWs).reverse.dropWhile isJsWs).reverse :=
    backTrim_preserves_noLead isJsWs (l.dropWhile isJsWs) (dropWhile_dropWhile isJsWs l)
  rw [hnoLead]
  rw [List.reverse_reverse]
  rw [dropWhile_dropWhile]

theorem jsTrim_idem (s : String) : jsTrim (jsTrim s) = jsTrim s := by
  unfold jsTrim
  simp [trimL_idem]

theorem normalizeRows_append (xs ys : List Row) :
    normalizeRows (xs ++ ys) =
      ((normalizeRows xs).1 ++ (normalizeRows ys).1, (normalizeRows xs).2 + (normalizeRows ys).2) := by
  induction xs with
  | nil => simp [normalizeRows]
  | cons row rest ih =>
    cases hs : normStep row
    · simp [normalizeRows, hs, ih]
      omega
    · simp [normalizeRows, hs, ih]

theorem normStep_some_props {row : Row} {p : Point} (h : normStep row = some p) :
    (jsTrim p.label = p.label ∧ p.label ≠ "") ∧ p.lat ≠ .nan ∧ p.lon ≠ .nan := by
  unfold normStep at h
  split at h
  case h_2 => exact absurd h (by simp)
  case h_1 lk lok nk =>
    split at h
    · exact absurd h (by simp)
    · rename_i hguard
      push_neg at hguard
      simp only [Option.some.injEq] at h
      rw [← h]
      exact ⟨⟨jsTrim_idem _, hguard.2.2⟩, hguard.1, hguard.2.1⟩

theorem mem_normalizeRows {rows : List Row} {p : Point}
    (h : p ∈ (normalizeRows rows).1) : ∃ row ∈ rows, normStep row = some p := by
  induction rows with
  | nil => simp [normalizeRows] at h
  | cons row rest ih =>
    cases hs : normStep row with
    | none =>
      simp [normalizeRows, hs] at h
      obtain ⟨r, hr, hsr⟩ := ih h
      exact ⟨r, List.mem_cons_of_mem _ hr, hsr⟩
    | some q =>
      simp [normalizeRows, hs] at h
      cases h with
      | inl he => exact ⟨row, List.mem_cons_self _ _, by rw [hs, he]⟩
      | inr hm =>
        obtain ⟨r, hr, hsr⟩ := ih hm
        exact ⟨r, List.mem_cons_of_mem _ hr, hsr⟩

theorem coordHemi_hasHemi {v : String} {h : Char} (hc : coordHemi v = some h) :
    hasHemiL (commaNorm v) = true := by
  unfold coordHemi hemiOfL at hc
  cases hf : (commaNorm v).find? isHemiChar with
  | none => rw [hf] at hc; cases hc
  | some u =>
    have hmem : u ∈ commaNorm v := List.mem_of_find?_eq_some hf
    have hu : isHemiChar u = true := List.find?_some hf
    unfold hasHemiL
    rw [List.any_eq_true]
    exact ⟨u, hmem, hu⟩

/-- When the string is non-empty after trimming and a DMS symbol or
hemisphere letter is present, parseCoord runs the DMS path. -/
theorem parseCoord_dms_eq {v : String} (h1 : trimL v.data ≠ [])
    (h2 : ¬((!hasDmsL (commaNorm v) && !hasHemiL (commaNorm v)) = true)) :
    parseCoord (.str v) = dmsCompute (coordHemi v) (coordTokens v) := by
  simp only [parseCoord]
  rw [if_neg h1, if_neg h2]

theorem dmsCompute_shape (hemi : Option Char) (parts : List (List Char)) :
    dmsCompute hemi parts = .nan ∨ ∃ d : JsNum, dmsCompute hemi parts = applyHemi hemi d := by
  cases parts with
  | nil => left; rfl
  | cons p0 rest =>
    simp only [dmsCompute]
    split
    · left; rfl
    · right; exact ⟨_, rfl⟩

/-- An S or W hemisphere forces negated absolute value: the result is NaN
(only from a NaN magnitude), negative infinity, or a nonpositive finite
value. -/
theorem applyHemi_sw (h : Char) (d : JsNum) (hsw : h = 'S' ∨ h = 'W') :
    applyHemi (some h) d = .nan ∨ applyHemi (some h) d = .negInf ∨
      ∃ q : ℚ, applyHemi (some h) d = .fin q ∧ q ≤ 0 := by
  have hform : applyHemi (some h) d = jsNeg (jsAbs d) := by
    rcases hsw with rfl | rfl
    · show (if ('S' = 'S' || 'S' = 'W') = true then jsNeg (jsAbs d)
          else if ('S' = 'N' || 'S' = 'E') = true then jsAbs d else d) = jsNeg (jsAbs d)
      rw [if_pos (by decide)]
    · show (if ('W' = 'S' || 'W' = 'W') = true then jsNeg (jsAbs d)
          else if ('W' = 'N' || 'W' = 'E') = true then jsAbs d else d) = jsNeg (jsAbs d)
      rw [if_pos (by decide)]
  rw [hform]
  cases d with
  | fin q =>
    right; right
    refine ⟨-(if q < 0 then -q else q), by simp [jsAbs, jsNeg], ?_⟩
    by_cases hq : q < 0
    · rw [if_pos hq]; linarith
    · rw [if_neg hq]; linarith
  | posInf => right; left; rfl
  | negInf => right; left; rfl
  | nan => left; rfl

/-- An N or E hemisphere forces absolute value: the result is NaN (only
from a NaN magnitude), positive infinity, or a nonnegative finite value. -/
theorem applyHemi_ne (h : Char) (d : JsNum) (hne : h = 'N' ∨ h = 'E') :
    applyHemi (some h) d = .nan ∨ applyHemi (some h) d = .posInf ∨
      ∃ q : ℚ, applyHemi (some h) d = .fin q ∧ 0 ≤ q := by
  have hform : applyHemi (some h) d = jsAbs d := by
    rcases hne with rfl | rfl
    · show (if ('N' = 'S' || 'N' = 'W') = true then jsNeg (jsAbs d)
          else if ('N' = 'N' || 'N' = 'E') = true then jsAbs d else d) = jsAbs d
      rw [if_neg (by decide), if_pos (by decide)]
    · show (if ('E' = 'S' || 'E' = 'W') = true then jsNeg (jsAbs d)
          else if ('E' = 'N' || 'E' = 'E') = true then jsAbs d else d) = jsAbs d
      rw [if_neg (by decide), if_pos (by decide)]
  rw [hform]
  cases d with
  | fin q =>
    right; right
    refine ⟨if q < 0 then -q else q, by simp [jsAbs], ?_⟩
    by_cases hq : q < 0
    · rw [if_pos hq]; linarith
    · rw [if_neg hq]; linarith
  | posInf => right; left; rfl
  | negInf => right; left; rfl
  | nan => left; rfl

theorem dmsCompute_nan_of_fail (hemi : Option Char) (p0 : List Char) (rest : List (List Char))
    (h : parseFloatL p0 = .nan ∨ parseFloatL (rest.getD 0 ['0']) = .nan ∨
         parseFloatL (rest.getD 1 ['0']) = .nan) :
    dmsCompute hemi (p0 :: rest) = .nan := by
  simp only [dmsCompute]
  rw [if_pos h]

theorem findKey_eq_none_of_no_match (row : Row) (cands : List String)
    (h : ∀ kv ∈ row, toLowerStr kv.1 ∉ cands.map toLowerStr) :
    findKey row cands = none := by
  induction cands with
  | nil => rfl
  | cons c rest ih =>
    have hlk : lowerLookup row (toLowerStr c) = none := by
      unfold lowerLookup
      have hf : row.reverse.find? (fun kv => toLowerStr kv.1 = toLowerStr c) = none := by
        apply List.find?_eq_none.mpr
        intro kv hkv
        have hkv' : kv ∈ row := List.mem_reverse.mp hkv
        have hno := h kv hkv'
        simp only [List.map_cons, List.mem_cons, not_or] at hno
        simp only [decide_eq_true_eq]
        exact hno.1
      rw [hf]
      rfl
    have hrest : ∀ kv ∈ row, toLowerStr kv.1 ∉ rest.map toLowerStr := by
      intro kv hkv
      have hno := h kv hkv
      simp only [List.map_cons, List.mem_cons, not_or] at hno
      exact hno.2
    simp [findKey, hlk, ih hrest]

theorem normStep_none_of_no_lat (row : Row) (h : findKey row latAliases = none) :
    normStep row = none := by
  unfold normStep
  split
  · rename_i lk lok nk hk
    simp_all
  · rfl

/-! Claim theorems. The rational operations of Batteries are irreducible by
default, which blocks evaluation of concrete model runs by the decide
tactic; they are made semireducible locally so that ground facts about the
embedded program can be settled by evaluation. -/

attribute [local semireducible] Rat.add Rat.mul Rat.inv Rat.sub

/-- The DMS input of claim C1 with the real degree sign U+00B0: the string
28 degree-sign 36 apostrophe 50 double-quote N. -/
def c1Input : String :=
  String.mk ['2', '8', degreeSign, '3', '6', aposChar, '5', '0', quotChar, 'N']

/-- The same input written with the mojibake character U+C9F8 that the code
actually strips. -/
def c1MojibakeInput : String :=
  String.mk ['2', '8', mojibakeDeg, '3', '6', aposChar, '5', '0', quotChar, 'N']

/-- C1: the claim says parseCoordinate on the DMS string with the degree
sign U+00B0 returns about 28.61389. The code strips the mojibake character
U+C9F8 instead of the degree sign, so the degree sign survives into the
first token, parseFloat reads only its numeric prefix 28, and the token 50
lands in the minutes slot: the result is 28 + 50/60, about 28.8333, more
than 0.1 away from the claimed value. On the same digits written with the
mojibake character the code does return 28 + 36/60 + 50/3600, showing the
intent of the stripping step. -/
theorem c1_mojibake_degree_sign_bug :
    parseCoord (.str c1Input) = .fin (173 / 6) ∧
    (173 / 6 : ℚ) - (28 + 36 / 60 + 50 / 3600) > 1 / 10 ∧
    parseCoord (.str c1MojibakeInput) = .fin (28 + 36 / 60 + 50 / 3600) := by
  refine ⟨by decide, by norm_num, by decide⟩

/-- C3 counterexample: the claim says parseCoordinate of the string minus-5
space 30 space 0 is about minus 5.5. The string has neither a DMS symbol
nor a hemisphere letter, so the code parses the whole string as one plain
number, and a number with interior spaces is NaN: the result is invalid,
not minus 5.5. -/
theorem c3_plain_path_counterexample :
    parseCoord (.str "-5 30 0") = JsNum.nan := by decide

/-- The same digits with a minute mark after 30, which forces the DMS path. -/
def c3DmsInput : String :=
  String.mk ['-', '5', ' ', '3', '0', aposChar, ' ', '0']

/-- C3 amended: with neither DMS punctuation nor a hemisphere letter the
whole string is parsed as a plain decimal number, so the input minus-5
space 30 space 0 is invalid (NaN). The numeric sign of the degrees token is
preserved on the DMS path: the same digits with a minute mark, minus-5
space 30-minute-mark space 0, give minus 5.5. -/
theorem c3_amended_sign_preserved_on_dms_path :
    parseCoord (.str "-5 30 0") = JsNum.nan ∧
    parseCoord (.str c3DmsInput) = .fin (-(11 / 2)) := by
  refine ⟨by decide, by decide⟩

/-- C9: a label cell holding null is coerced by the JS String conversion to
the four-letter string null, which is non-empty after trimming, so the row
is kept rather than dropped. -/
theorem c9_null_label_kept :
    normalizeRows [[("lat", Cell.str "1"), ("lon", Cell.str "2"), ("name", Cell.null)]] =
      ([⟨.fin 1, .fin 2, "null"⟩], 0) := by decide

/-- A DMS-path input whose fourth whitespace-separated token zz fails to
parse as a number: the digit 1, a minute mark, then 2, 3 and zz. -/
def c7Input : String :=
  String.mk ['1', aposChar, ' ', '2', ' ', '3', ' ', 'z', 'z']

/-- C7 counterexample: the claim says any token of the cleaned string that
fails to parse as a number makes the whole value invalid. This input takes
the DMS path, its cleaned string tokenises to 1, 2, 3 and zz, the token zz
fails to parse as a number, and yet parseCoord returns the valid value
1 + 2/60 + 3/3600: tokens after the third are ignored. -/
theorem c7_extra_token_counterexample :
    DmsTaken c7Input ∧
    coordTokens c7Input = [['1'], ['2'], ['3'], ['z', 'z']] ∧
    parseFloatL ['z', 'z'] = JsNum.nan ∧
    parseCoord (.str c7Input) = .fin (1241 / 1200) := by
  refine ⟨by decide, by decide, by decide, by decide⟩

/-- C7 amended: in the DMS path, if any of the FIRST THREE
whitespace-separated tokens of the cleaned string fails to parse as a
number, the whole value is invalid; tokens after the third are ignored.
The second and third token default to the string 0 when absent, matching
the or-defaulting in server.js. -/
theorem c7_amended_first_three_tokens :
    ∀ v : String, DmsTaken v →
      (parseFloatL ((coordTokens v).getD 0 []) = .nan ∨
       parseFloatL ((coordTokens v).getD 1 ['0']) = .nan ∨
       parseFloatL ((coordTokens v).getD 2 ['0']) = .nan) →
      parseCoord (.str v) = .nan := by
  intro v hdms hfail
  obtain ⟨hne, hb⟩ := hdms
  have hcond : ¬((!hasDmsL (commaNorm v) && !hasHemiL (commaNorm v)) = true) := by
    intro hc
    rw [Bool.and_eq_true, Bool.not_eq_true', Bool.not_eq_true'] at hc
    rw [hc.1, hc.2] at hb
    simp at hb
  rw [parseCoord_dms_eq hne hcond]
  cases htk : coordTokens v with
  | nil => rfl
  | cons p0 rest =>
    apply dmsCompute_nan_of_fail
    rw [htk] at hfail
    simpa [List.getD] using hfail

/-- C7 amended witness: the input consisting of the letter x followed by a
minute mark takes the DMS path, its only token x fails to parse, and
parseCoord is invalid. -/
theorem c7_amended_witness :
    parseCoord (.str (String.mk ['x', aposChar])) = JsNum.nan :=
  c7_amended_first_three_tokens (String.mk ['x', aposChar]) (by decide)
    (Or.inl (by decide))

/-- A latitude cell of 310 decimal digits: the digit 1 followed by 309
zeros, denoting 10 to the 309, far beyond the binary64 overflow boundary of
about 1.8 times 10 to the 308. -/
def hugeDigits : List Char := '1' :: List.replicate 309 '0'

/-- A row whose latitude cell overflows Number() to Infinity. -/
def hugeRow : Row :=
  [("lat", Cell.str (String.mk hugeDigits)), ("lon", Cell.str "2"), ("name", Cell.str "big")]

/-- C2 counterexample: the claimed invariant says every output point has
finite coordinates, but a 310-digit latitude cell takes the plain-number
path, overflows the double conversion to positive infinity, passes the NaN
guard (Infinity is not NaN), and is emitted: normalizeRows keeps the row
with lat equal to positive infinity, which is not finite. -/
theorem c2_infinite_lat_counterexample :
    normalizeRows [hugeRow] = ([⟨JsNum.posInf, .fin 2, "big"⟩], 0) ∧
    JsNum.posInf.isFinite = false := by
  refine ⟨by decide, rfl⟩

/-- C2 amended: every point produced by normalizeRows has a label that is
non-empty after trimming and coordinates that are never NaN (the only
numeric guard the code applies); finiteness is not guaranteed, since an
overflowing cell yields an infinity that passes the NaN guard. The theorem
also exhibits the originating row of every output point. -/
theorem c2_amended_label_and_no_nan :
    ∀ (rows : List Row) (p : Point), p ∈ (normalizeRows rows).1 →
      (jsTrim p.label = p.label ∧ p.label ≠ "") ∧ p.lat ≠ .nan ∧ p.lon ≠ .nan ∧
      ∃ row ∈ rows, normStep row = some p := by
  intro rows p hp
  obtain ⟨row, hrow, hstep⟩ := mem_normalizeRows hp
  obtain ⟨hl, hlat, hlon⟩ := normStep_some_props hstep
  exact ⟨hl, hlat, hlon, row, hrow, hstep⟩

/-- C2 witness: the amended invariant applied to a one-row input whose
label cell carries surrounding whitespace. -/
theorem c2_amended_label_and_no_nan_witness :
    (jsTrim (Point.mk (.fin 1) (.fin 2) "a").label = (Point.mk (.fin 1) (.fin 2) "a").label ∧
      (Point.mk (.fin 1) (.fin 2) "a").label ≠ "") ∧
    (Point.mk (.fin 1) (.fin 2) "a").lat ≠ .nan ∧
    (Point.mk (.fin 1) (.fin 2) "a").lon ≠ .nan ∧
    ∃ row ∈ [[("lat", Cell.str "1"), ("lon", Cell.str "2"), ("name", Cell.str " a ")]],
      normStep row = some (Point.mk (.fin 1) (.fin 2) "a") :=
  c2_amended_label_and_no_nan
    [[("lat", Cell.str "1"), ("lon", Cell.str "2"), ("name", Cell.str " a ")]]
    (Point.mk (.fin 1) (.fin 2) "a") (by decide)

/-- C6: on every string input from which the DMS path extracts a hemisphere
letter, the letter decides the sign of every non-NaN result regardless of
the numeric sign of the degrees token: S and W force negative infinity or a
nonpositive finite value, N and E force positive infinity or a nonnegative
finite value; in particular the input minus-5 30 0 N yields plus 5.5 and
the input 77 12 30 W yields minus (77 + 12/60 + 30/3600). -/
theorem c6_hemisphere_overrides_sign :
    (∀ (v : String) (r : JsNum), parseCoord (.str v) = r → r ≠ .nan →
      ((coordHemi v = some 'S' ∨ coordHemi v = some 'W') →
        r = .negInf ∨ ∃ q : ℚ, r = .fin q ∧ q ≤ 0) ∧
      ((coordHemi v = some 'N' ∨ coordHemi v = some 'E') →
        r = .posInf ∨ ∃ q : ℚ, r = .fin q ∧ 0 ≤ q)) ∧
    parseCoord (.str "-5 30 0 N") = .fin (11 / 2) ∧
    parseCoord (.str "77 12 30 W") = .fin (-(1853 / 24)) := by
  refine ⟨?_, by decide, by decide⟩
  intro v r hr hnan
  have hget : ∀ h : Char, coordHemi v = some h → ∃ d, r = applyHemi (some h) d := by
    intro h hh
    have hhemi : hasHemiL (commaNorm v) = true := coordHemi_hasHemi hh
    have h2 : ¬((!hasDmsL (commaNorm v) && !hasHemiL (commaNorm v)) = true) := by
      intro hc
      rw [Bool.and_eq_true, Bool.not_eq_true', Bool.not_eq_true'] at hc
      rw [hc.2] at hhemi
      cases hhemi
    have h1 : trimL v.data ≠ [] := by
      intro hnil
      simp only [parseCoord] at hr
      rw [if_pos hnil] at hr
      exact hnan hr.symm
    rw [parseCoord_dms_eq h1 h2] at hr
    rcases dmsCompute_shape (coordHemi v) (coordTokens v) with hsh | ⟨d, hd⟩
    · rw [hsh] at hr
      exact absurd hr.symm hnan
    · rw [hd, hh] at hr
      exact ⟨d, hr.symm⟩
  constructor
  · rintro (hh | hh)
    · obtain ⟨d, hd⟩ := hget 'S' hh
      rcases applyHemi_sw 'S' d (Or.inl rfl) with h2 | h2 | ⟨q, hq, hq0⟩
      · exact absurd (hd.trans h2) hnan
      · left; exact hd.trans h2
      · right; exact ⟨q, hd.trans hq, hq0⟩
    · obtain ⟨d, hd⟩ := hget 'W' hh
      rcases applyHemi_sw 'W' d (Or.inr rfl) with h2 | h2 | ⟨q, hq, hq0⟩
      · exact absurd (hd.trans h2) hnan
      · left; exact hd.trans h2
      · right; exact ⟨q, hd.trans hq, hq0⟩
  · rintro (hh | hh)
    · obtain ⟨d, hd⟩ := hget 'N' hh
      rcases applyHemi_ne 'N' d (Or.inl rfl) with h2 | h2 | ⟨q, hq, hq0⟩
      · exact absurd (hd.trans h2) hnan
      · left; exact hd.trans h2
      · right; exact ⟨q, hd.trans hq, hq0⟩
    · obtain ⟨d, hd⟩ := hget 'E' hh
      rcases applyHemi_ne 'E' d (Or.inr rfl) with h2 | h2 | ⟨q, hq, hq0⟩
      · exact absurd (hd.trans h2) hnan
      · left; exact hd.trans h2
      · right; exact ⟨q, hd.trans hq, hq0⟩

/-- C6 witness: the general sign bound applied to the concrete input 77 12
30 W, whose parse the same theorem provides. -/
theorem c6_hemisphere_overrides_sign_witness :
    JsNum.fin (-(1853 / 24)) = JsNum.negInf ∨
      ∃ q : ℚ, JsNum.fin (-(1853 / 24)) = .fin q ∧ q ≤ 0 :=
  (c6_hemisphere_overrides_sign.1 "77 12 30 W" (.fin (-(1853 / 24)))
      c6_hemisphere_overrides_sign.2.2 (by decide)).1 (Or.inr (by decide))

/-- C8: a row none of whose column names matches a latitude alias (lat,
Latitude or y, case-insensitively) is dropped: inserting such a row
anywhere in an input leaves the output points exactly those of the
remaining rows in their input order and adds exactly one to the dropped
count. -/
theorem c8_missing_lat_row_dropped :
    ∀ (pre post : List Row) (r : Row),
      (∀ kv ∈ r, toLowerStr kv.1 ∉ latAliases.map toLowerStr) →
      (normalizeRows (pre ++ r :: post)).1 = (normalizeRows pre).1 ++ (normalizeRows post).1 ∧
      (normalizeRows (pre ++ r :: post)).2 =
        (normalizeRows pre).2 + (normalizeRows post).2 + 1 ∧
      (normalizeRows (pre ++ post)).1 = (normalizeRows pre).1 ++ (normalizeRows post).1 ∧
      (normalizeRows (pre ++ post)).2 = (normalizeRows pre).2 + (normalizeRows post).2 := by
  intro pre post r h
  have hstep : normStep r = none :=
    normStep_none_of_no_lat r (findKey_eq_none_of_no_match r latAliases h)
  have hmid : normalizeRows (r :: post) =
      ((normalizeRows post).1, (normalizeRows post).2 + 1) := by
    simp [normalizeRows, hstep]
  have happ := normalizeRows_append pre (r :: post)
  have happ2 := normalizeRows_append pre post
  rw [hmid] at happ
  refine ⟨?_, ?_, ?_, ?_⟩
  · rw [happ]
  · rw [happ]
    omega
  · rw [happ2]
  · rw [happ2]

/-- C8 witness: inserting a row with no latitude alias between two valid
rows drops exactly that row and keeps the two points in order. -/
theorem c8_missing_lat_row_dropped_witness :
    (normalizeRows ([[("lat", Cell.str "1"), ("lon", Cell.str "2"), ("name", Cell.str "a")]] ++
        [("foo", Cell.str "9")] ::
          [[("lat", Cell.str "3"), ("lon", Cell.str "4"), ("name", Cell.str "b")]])).1 =
      (normalizeRows [[("lat", Cell.str "1"), ("lon", Cell.str "2"), ("name", Cell.str "a")]]).1 ++
        (normalizeRows [[("lat", Cell.str "3"), ("lon", Cell.str "4"), ("name", Cell.str "b")]]).1 ∧
    (normalizeRows ([[("lat", Cell.str "1"), ("lon", Cell.str "2"), ("name", Cell.str "a")]] ++
        [("foo", Cell.str "9")] ::
          [[("lat", Cell.str "3"), ("lon", Cell.str "4"), ("name", Cell.str "b")]])).2 =
      (normalizeRows [[("lat", Cell.str "1"), ("lon", Cell.str "2"), ("name", Cell.str "a")]]).2 +
        (normalizeRows [[("lat", Cell.str "3"), ("lon", Cell.str "4"), ("name", Cell.str "b")]]).2 +
        1 ∧
    (normalizeRows ([[("lat", Cell.str "1"), ("lon", Cell.str "2"), ("name", Cell.str "a")]] ++
        [[("lat", Cell.str "3"), ("lon", Cell.str "4"), ("name", Cell.str "b")]])).1 =
      (normalizeRows [[("lat", Cell.str "1"), ("lon", Cell.str "2"), ("name", Cell.str "a")]]).1 ++
        (normalizeRows [[("lat", Cell.str "3"), ("lon", Cell.str "4"), ("name", Cell.str "b")]]).1 ∧
    (normalizeRows ([[("lat", Cell.str "1"), ("lon", Cell.str "2"), ("name", Cell.str "a")]] ++
        [[("lat", Cell.str "3"), ("lon", Cell.str "4"), ("name", Cell.str "b")]])).2 =
      (normalizeRows [[("lat", Cell.str "1"), ("lon", Cell.str "2"), ("name", Cell.str "a")]]).2 +
        (normalizeRows [[("lat", Cell.str "3"), ("lon", Cell.str "4"), ("name", Cell.str "b")]]).2 :=
  c8_missing_lat_row_dropped
    [[("lat", Cell.str "1"), ("lon", Cell.str "2"), ("name", Cell.str "a")]]
    [[("lat", Cell.str "3"), ("lon", Cell.str "4"), ("name", Cell.str "b")]]
    [("foo", Cell.str "9")] (by decide)

/-- C4: with the file unchanged between two calls, the second call never
reads or parses and returns exactly the points of the first call; and
whenever the modification time of an accessible file is strictly newer
than the cached one, the call parses and returns the points normalized
from the new content. -/
theorem c4_cache_idempotent_and_fresh :
    (∀ (fs : Fs) (c : Cache),
      (loadCsvCached fs (loadCsvCached fs c).cache).didParse = false ∧
      (loadCsvCached fs (loadCsvCached fs c).cache).points = (loadCsvCached fs c).points) ∧
    (∀ (c : Cache) (m : ℚ) (text : String), m > c.mtimeMs →
      (loadCsvCached ⟨some (m, text)⟩ c).points = (normalizeRows (csvParse text)).1 ∧
      (loadCsvCached ⟨some (m, text)⟩ c).didParse = true) := by
  constructor
  · intro fs c
    obtain ⟨file⟩ := fs
    cases file with
    | none => simp [loadCsvCached]
    | some mt =>
      obtain ⟨m, text⟩ := mt
      by_cases hc : c.rows = none ∨ m > c.mtimeMs
      · simp only [loadCsvCached, if_pos hc]
        have hnot : ¬((some (normalizeRows (csvParse text)).1 : Option (List Point)) = none ∨
            m > m) := by
          rintro (hbad | hbad)
          · cases hbad
          · exact lt_irrefl m hbad
        simp only [if_neg hnot]
        constructor <;> trivial
      · simp only [loadCsvCached, if_neg hc]
        constructor <;> trivial
  · intro c m text hm
    simp only [loadCsvCached, if_pos (Or.inr hm)]
    constructor <;> trivial

/-- C4 witness: the idempotence half applied at a concrete file and the
refresh half applied to the initial (empty) cache with a strictly newer
modification time. -/
theorem c4_cache_idempotent_and_fresh_witness :
    ((loadCsvCached ⟨some (1, "")⟩ (loadCsvCached ⟨some (1, "")⟩ initialCache).cache).didParse =
        false ∧
      (loadCsvCached ⟨some (1, "")⟩ (loadCsvCached ⟨some (1, "")⟩ initialCache).cache).points =
        (loadCsvCached ⟨some (1, "")⟩ initialCache).points) ∧
    ((loadCsvCached ⟨some (1, "")⟩ initialCache).points = (normalizeRows (csvParse "")).1 ∧
      (loadCsvCached ⟨some (1, "")⟩ initialCache).didParse = true) :=
  ⟨c4_cache_idempotent_and_fresh.1 ⟨some (1, "")⟩ initialCache,
    c4_cache_idempotent_and_fresh.2 initialCache 1 "" (by norm_num [initialCache])⟩

/-- C5: when the backing file is inaccessible, the call returns the empty
list, performs no parse, and leaves every cache state exactly as it was;
the model is a total function, so no error crosses the public boundary. -/
theorem c5_inaccessible_returns_empty_keeps_cache :
    ∀ c : Cache, loadCsvCached ⟨none⟩ c = ⟨[], c, false⟩ := by
  intro c
  rfl

/-- C10: a successful load whose normalization yields zero points still
populates the cache with the empty row list and the file modification
time, so a second call on the unchanged file does not parse again and
returns the empty list from the cache. -/
theorem c10_empty_load_populates_cache :
    ∀ (m : ℚ) (text : String) (c : Cache),
      (normalizeRows (csvParse text)).1 = [] →
      (c.rows = none ∨ m > c.mtimeMs) →
      (loadCsvCached ⟨some (m, text)⟩ c).cache = ⟨some [], m⟩ ∧
      loadCsvCached ⟨some (m, text)⟩ (loadCsvCached ⟨some (m, text)⟩ c).cache =
        ⟨[], ⟨some [], m⟩, false⟩ := by
  intro m text c hempty hc
  simp only [loadCsvCached, if_pos hc, hempty]
  have hnot : ¬((some ([] : List Point) : Option (List Point)) = none ∨ m > m) := by
    rintro (hbad | hbad)
    · cases hbad
    · exact lt_irrefl m hbad
  simp only [if_neg hnot]
  constructor <;> trivial

/-- C10 witness: an accessible empty file loaded into the initial cache. -/
theorem c10_empty_load_populates_cache_witness :
    (loadCsvCached ⟨some (1, "")⟩ initialCache).cache = ⟨some [], 1⟩ ∧
    loadCsvCached ⟨some (1, "")⟩ (loadCsvCached ⟨some (1, "")⟩ initialCache).cache =
      ⟨[], ⟨some [], 1⟩, false⟩ :=
  c10_empty_load_populates_cache 1 "" initialCache (by decide) (Or.inl rfl)

end SiteCoverage
